import Mathlib

/-!
Verification of the Search-Result Distillation Pipeline of `InfoRecon`
(`src/app/services/web_search_service.py`, class `WebSearchService`).

Shallow embedding conventions:
* Python strings are modelled as `List Char` (Python `len`/indexing count
  code points, as `List Char` does).
* The network transport (one `session.get` including reading the body) is a
  parameter `fetch : List Char → FetchResult`; `FetchResult.err` covers the
  `aiohttp.ClientError`/`TimeoutError` cases caught by the source, `ok`
  carries the server-side redirect history (the `real_url` of each entry of
  `response.history`), the final `real_url` and the decoded body.
* The crawler collaborator of `search` is modelled by the value it returns
  (or the exception message it raises) for the one query of interest.
* Every regex of the source is hand-compiled to an equivalent scanning
  function over `List Char`, following Python `re` semantics (leftmost
  match, `re.MULTILINE` anchoring, lazy/greedy backtracking where the
  concrete patterns need it).
-/

/-- The characters matched by Python's `\s` (and stripped by `str.strip()`)
for the ASCII range: space, tab, newline, carriage return, vertical tab,
form feed. -/
def isPySpace (c : Char) : Bool :=
  c = ' ' || c = '\t' || c = '\n' || c = '\r' || c = '\x0b' || c = '\x0c'

/-- Python `str.strip()`: drop leading and trailing whitespace. -/
def pyStrip (s : List Char) : List Char :=
  ((s.dropWhile isPySpace).reverse.dropWhile isPySpace).reverse

/-- `re.sub(r'\s+', ' ', s)`: collapse every whitespace run to a single
space.  The flag records whether the previous character belonged to a
whitespace run. -/
def collapseWsAux : List Char → Bool → List Char
  | [], _ => []
  | c :: rest, prevSpace =>
    if isPySpace c then
      if prevSpace then collapseWsAux rest true
      else ' ' :: collapseWsAux rest true
    else c :: collapseWsAux rest false

/-- Scanner behind Python `str.find`: the least index `i ≥` the running
counter at which `needle` is a prefix of the remaining haystack. -/
def findSubAux (needle : List Char) : List Char → Nat → Option Nat
  | [], i => if needle.isEmpty then some i else none
  | c :: rest, i =>
    if needle.isPrefixOf (c :: rest) then some i
    else findSubAux needle rest (i + 1)

/-- Python `hay.find(needle)`, with `none` for Python's `-1`. -/
def pyFind (hay needle : List Char) : Option Nat :=
  findSubAux needle hay 0

/-- Python `needle in hay`. -/
def pyContains (hay needle : List Char) : Bool :=
  (pyFind hay needle).isSome

/-- Python `s.replace('', new)` intersperses `new` before every character
and at the end. -/
def emptyPatReplace (new : List Char) : List Char → List Char
  | [] => new
  | c :: rest => new ++ c :: emptyPatReplace new rest

/-- Python `s.replace(old, new)` for nonempty `old`: replace the
non-overlapping occurrences left to right.  Each step consumes at least one
character of the remaining text, so a fuel equal to the text's length (as
supplied by `pyReplace`) is never exhausted; the fuel only makes the
recursion structural. -/
def pyReplaceAux (old new : List Char) : Nat → List Char → List Char
  | 0, s => s
  | _, [] => []
  | fuel + 1, c :: rest =>
    if old.isPrefixOf (c :: rest) then
      new ++ pyReplaceAux old new fuel ((c :: rest).drop old.length)
    else
      c :: pyReplaceAux old new fuel rest

/-- Python `s.replace(old, new)`. -/
def pyReplace (s old new : List Char) : List Char :=
  if old.isEmpty then emptyPatReplace new s else pyReplaceAux old new s.length s

/-- Python's `["\']` character class. -/
def isQuote (c : Char) : Bool :=
  c = '"' || c = '\''

/-- Case-insensitive literal match (`re.IGNORECASE`); returns the rest of
the input after the literal. -/
def matchLitCI : List Char → List Char → Option (List Char)
  | [], cs => some cs
  | _ :: _, [] => none
  | l :: ls, c :: cs =>
    if c.toLower = l.toLower then matchLitCI ls cs else none

/-- The regex fragment `["\']([^"\']+)["\']`: a quote, a nonempty capture of
non-quote characters, a quote.  Returns the capture and the rest. -/
def matchQuotedCapture (cs : List Char) : Option (List Char × List Char) :=
  match cs with
  | [] => none
  | q :: rest =>
    if isQuote q then
      let cap := rest.takeWhile (fun c => !(isQuote c))
      if cap.isEmpty then none
      else
        match rest.drop cap.length with
        | q2 :: rest2 => if isQuote q2 then some (cap, rest2) else none
        | [] => none
    else none

/-- The regex fragment `\s*=\s*`. -/
def matchEq (cs : List Char) : Option (List Char) :=
  match cs.dropWhile isPySpace with
  | '=' :: rest => some (rest.dropWhile isPySpace)
  | _ => none

def litLocReplace : List Char := ("window.location.replace(").data
def litLocHref : List Char := ("window.location.href").data
def litLoc : List Char := ("window.location").data
def litMeta : List Char := ("<meta").data
def litHttpEquiv : List Char := ("http-equiv=").data
def litRefresh : List Char := ("refresh").data
def litUrlEq : List Char := ("url=").data

/-- Attempt `window\.location\.replace\(["\']([^"\']+)["\']\)` at this
position (case-insensitively). -/
def matchP1At (cs : List Char) : Option (List Char) := do
  let r1 ← matchLitCI litLocReplace cs
  let (cap, r2) ← matchQuotedCapture r1
  match r2 with
  | ')' :: _ => some cap
  | _ => none

/-- Attempt `window\.location\.href\s*=\s*["\']([^"\']+)["\']` at this
position. -/
def matchP2At (cs : List Char) : Option (List Char) := do
  let r1 ← matchLitCI litLocHref cs
  let r2 ← matchEq r1
  let (cap, _) ← matchQuotedCapture r2
  some cap

/-- Attempt `window\.location\s*=\s*["\']([^"\']+)["\']` at this position. -/
def matchP3At (cs : List Char) : Option (List Char) := do
  let r1 ← matchLitCI litLoc cs
  let r2 ← matchEq r1
  let (cap, _) ← matchQuotedCapture r2
  some cap

/-- `re.search`: try the pattern at every start position, left to right.
(None of the patterns used here can match the empty suffix, so the attempt
at the very end is omitted.) -/
def searchPattern (m : List Char → Option (List Char)) : List Char → Option (List Char)
  | [] => none
  | c :: rest =>
    match m (c :: rest) with
    | some cap => some cap
    | none => searchPattern m rest

/-- Greedy backtracking for `[^>]+` followed by a continuation: try the
continuation after dropping `k, k-1, …, 1` characters (the regex engine
prefers the longest run). -/
def tryDropsDesc (cont : List Char → Option (List Char)) (cs : List Char) :
    Nat → Option (List Char)
  | 0 => none
  | k + 1 =>
    match cont (cs.drop (k + 1)) with
    | some r => some r
    | none => tryDropsDesc cont cs k

/-- The tail `url=([^"\'\s>]+)` of the meta-refresh pattern. -/
def matchMetaTail (cs : List Char) : Option (List Char) := do
  let r ← matchLitCI litUrlEq cs
  let cap := r.takeWhile (fun c => !(isQuote c) && !(isPySpace c) && c ≠ '>')
  if cap.isEmpty then none else some cap

/-- The middle `http-equiv=["\']refresh["\'][^>]+url=(…)` of the
meta-refresh pattern. -/
def matchMetaMid (cs : List Char) : Option (List Char) := do
  let r1 ← matchLitCI litHttpEquiv cs
  let r2 ← (match r1 with
            | q :: rest => if isQuote q then some rest else none
            | [] => none)
  let r3 ← matchLitCI litRefresh r2
  let r4 ← (match r3 with
            | q :: rest => if isQuote q then some rest else none
            | [] => none)
  tryDropsDesc matchMetaTail r4 ((r4.takeWhile (fun c => c ≠ '>')).length)

/-- Attempt `<meta[^>]+http-equiv=["\']refresh["\'][^>]+url=([^"\'\s>]+)`
at this position. -/
def matchP4At (cs : List Char) : Option (List Char) := do
  let r1 ← matchLitCI litMeta cs
  tryDropsDesc matchMetaMid r1 ((r1.takeWhile (fun c => c ≠ '>')).length)

/-- `re.sub(r'\s+', ' ', html.strip())`: the compacted body inspected by
the extractor. -/
def compactHtml (html : List Char) : List Char :=
  collapseWsAux (pyStrip html) false

/-- `WebSearchService._extract_js_redirect`: collapse whitespace, give up on
bodies longer than 1500 characters, then try the three JavaScript patterns
and the meta-refresh pattern in order; the first `re.search` hit wins. -/
def extract_js_redirect (html : List Char) : Option (List Char) :=
  if 1500 < (compactHtml html).length then none
  else
    match searchPattern matchP1At (compactHtml html) with
    | some u => some u
    | none =>
      match searchPattern matchP2At (compactHtml html) with
      | some u => some u
      | none =>
        match searchPattern matchP3At (compactHtml html) with
        | some u => some u
        | none => searchPattern matchP4At (compactHtml html)

/-- Outcome of one `session.get(current_url, allow_redirects=True, …)`
together with reading the body.  `history` holds the `real_url` of each
response in `response.history`; `real_url` is the final `response.real_url`;
`err` is a caught `aiohttp.ClientError` or `TimeoutError`. -/
inductive FetchResult where
  | ok (history : List (List Char)) (real_url : List Char) (body : List Char)
  | err
deriving DecidableEq

/-- The per-hop `history` list built by `_trace_url_redirects`:
`[response.real_url] if not response.history else
 [r.real_url for r in response.history] + [response.real_url]`. -/
def hopUrls (history : List (List Char)) (real_url : List Char) : List (List Char) :=
  if history.isEmpty then [real_url] else history ++ [real_url]

/-- The `for _ in range(self.max_redirect_depth)` loop of
`_trace_url_redirects`, with the remaining iteration count as fuel and the
loop variables `current_url`, `visited`, `redirect_chain` explicit. -/
def traceLoop (fetch : List Char → FetchResult) (initial_url : List Char) :
    Nat → List Char → List (List Char) → List (List Char) → List (List Char)
  | 0, _, _, chain => chain
  | fuel + 1, current, visited, chain =>
    if current ∈ visited then chain
    else
      match fetch current with
      | .err => if chain.isEmpty then [initial_url] else chain
      | .ok history real body =>
        let chain2 := chain ++ hopUrls history real
        match extract_js_redirect body with
        | some next => traceLoop fetch initial_url fuel next (current :: visited) chain2
        | none => chain2

/-- `WebSearchService._trace_url_redirects`. -/
def trace_url_redirects (fetch : List Char → FetchResult)
    (max_redirect_depth : Nat) (initial_url : List Char) : List (List Char) :=
  let chain := traceLoop fetch initial_url max_redirect_depth initial_url [] []
  if chain.isEmpty then [initial_url] else chain

/-- Instrumentation of `traceLoop`: the list of hop-initiating URLs on which
`fetch` is invoked, in order. -/
def traceFetchedUrls (fetch : List Char → FetchResult) :
    Nat → List Char → List (List Char) → List (List Char)
  | 0, _, _ => []
  | fuel + 1, current, visited =>
    if current ∈ visited then []
    else
      match fetch current with
      | .err => [current]
      | .ok _ _ body =>
        match extract_js_redirect body with
        | some next => current :: traceFetchedUrls fetch fuel next (current :: visited)
        | none => [current]

/-- The header marker of `_clean_baidu_search_result`. -/
def baiduMarker : List Char :=
  ("时间不限所有网页和文件站点内检索\n百度为您找到以下结果").data

/-- The "URL not found, you may visit directly" phrase checked in the
preamble. -/
def noUrlPhrase : List Char := ("没有找到该URL。您可以直接访问").data

/-- The footer marker (the "related searches" boilerplate). -/
def footerMarker : List Char := ("大家还在搜").data

def headerMark : List Char := ("### ").data

def hashes3 : List Char := ("###").data

/-- Scanner behind `re.finditer(r'(?m)^### ', content)`: the start indices
of every occurrence of `"### "` at a line start.  (Matches of this pattern
can never overlap, so stepping one character at a time agrees with
`finditer`.) -/
def markPositionsAux : List Char → Nat → Bool → List Nat
  | [], _, _ => []
  | c :: rest, i, atStart =>
    if atStart && headerMark.isPrefixOf (c :: rest) then
      i :: markPositionsAux rest (i + 1) (c = '\n')
    else
      markPositionsAux rest (i + 1) (c = '\n')

def markPositions (s : List Char) : List Nat := markPositionsAux s 0 true

/-- The index of the last `'\n'` of a list, if any. -/
def lastNewlinePos : List Char → Option Nat
  | [] => none
  | c :: rest =>
    match lastNewlinePos rest with
    | some j => some (j + 1)
    | none => if c = '\n' then some 0 else none

/-- `re.sub(r'^###\s*\n', '### ', content, flags=re.MULTILINE)`: at a line
start, `###` followed by a whitespace run containing a newline is rewritten
to `"### "`; the greedy `\s*` makes the match end at the last newline of
the run.  Each step consumes at least one character, so the fuel supplied
by `normalizeHeaders` (the text's length) is never exhausted. -/
def normalizeHeadersAux : Nat → List Char → Bool → List Char
  | 0, s, _ => s
  | _, [], _ => []
  | fuel + 1, c :: rest, atStart =>
    if atStart && hashes3.isPrefixOf (c :: rest) then
      let after := (c :: rest).drop 3
      let ws := after.takeWhile isPySpace
      match lastNewlinePos ws with
      | some j => headerMark ++ normalizeHeadersAux fuel (after.drop (j + 1)) true
      | none => c :: normalizeHeadersAux fuel rest (c = '\n')
    else
      c :: normalizeHeadersAux fuel rest (c = '\n')

def normalizeHeaders (s : List Char) : List Char :=
  normalizeHeadersAux s.length s true

/-- Python `section.find('\n', start)`. -/
def pyFindCharFrom (s : List Char) (c : Char) (start : Nat) : Option Nat :=
  match findSubAux [c] (s.drop start) 0 with
  | some j => some (start + j)
  | none => none

/-- The matched text of `^### .*$` at a line start: everything up to (not
including) the next newline. -/
def takeLine (s : List Char) : List Char :=
  s.takeWhile (fun c => c ≠ '\n')

/-- `re.split(r'(^### .*$)', content, flags=re.MULTILINE)`: because the
pattern is one capture group, the result interleaves the non-matching
chunks with the matched header lines.  A matched header line is at least
four characters long, so each step consumes at least one character and the
fuel supplied by `splitHeaderLines` (the text's length) is never
exhausted. -/
def splitHeaderLinesAux : Nat → List Char → Bool → List Char → List (List Char)
  | 0, s, _, acc => [acc.reverse ++ s]
  | _, [], _, acc => [acc.reverse]
  | fuel + 1, c :: rest, atStart, acc =>
    if atStart && headerMark.isPrefixOf (c :: rest) then
      let line := takeLine (c :: rest)
      acc.reverse :: line ::
        splitHeaderLinesAux fuel ((c :: rest).drop line.length) false []
    else
      splitHeaderLinesAux fuel rest (c = '\n') (c :: acc)

def splitHeaderLines (s : List Char) : List (List Char) :=
  splitHeaderLinesAux s.length s true []

/-- Attempt `\[([^\]]+)\]\(([^\)]+)\)` at this position; returns the length
of the whole match.  The negated classes stop at the first `]` resp. `)`
(they may span newlines), and `](` must be adjacent. -/
def matchLinkAt (cs : List Char) : Option Nat :=
  match cs with
  | '[' :: rest =>
    let t := rest.takeWhile (fun c => c ≠ ']')
    if t.isEmpty then none
    else
      match rest.drop t.length with
      | ']' :: '(' :: rest2 =>
        let u := rest2.takeWhile (fun c => c ≠ ')')
        if u.isEmpty then none
        else
          match rest2.drop u.length with
          | ')' :: _ => some (1 + t.length + 2 + u.length + 1)
          | _ => none
      | _ => none
  | _ => none

/-- `re.search` for the link pattern: leftmost start position wins; returns
the end index of the match. -/
def searchLinkEnd : List Char → Nat → Option Nat
  | [], _ => none
  | c :: rest, i =>
    match matchLinkAt (c :: rest) with
    | some len => some (i + len)
    | none => searchLinkEnd rest (i + 1)

/-- The per-section body of the final loop of `_clean_baidu_search_result`:
header lines are kept; a section with non-whitespace content is cut after
the first link (to the end of the link's line, or to the link's end when no
newline follows); whitespace-only sections are kept. -/
def cleanSection (sec : List Char) : List Char :=
  if headerMark.isPrefixOf sec then sec
  else if (pyStrip sec).isEmpty then sec
  else
    match searchLinkEnd sec 0 with
    | some endPos =>
      match pyFindCharFrom sec '\n' endPos with
      | some nl => sec.take (nl + 1)
      | none => sec.take endPos
    | none => sec

/-- `WebSearchService._clean_baidu_search_result`.  Note that the boundary
positions `matches1` used for the three-block truncation are computed on
the text *before* `normalizeHeadersAux` rewrites it. -/
def clean_baidu_search_result (raw_text : List Char) : List Char :=
  match pyFind raw_text baiduMarker with
  | none => []
  | some idx =>
    let content0 := pyStrip (raw_text.drop (idx + baiduMarker.length))
    let matches0 := markPositions content0
    let step1 :=
      match matches0 with
      | [] => (content0, matches0)
      | first :: _ =>
        if pyContains (content0.take first) noUrlPhrase then (content0, matches0)
        else
          let c := content0.drop first
          (c, markPositions c)
    let content1 := step1.1
    let matches1 := step1.2
    let content2 := normalizeHeaders content1
    let content3 :=
      match matches1.drop 3 with
      | cutoff :: _ => pyStrip (content2.take cutoff)
      | [] => content2
    let content4 :=
      match pyFind content3 footerMarker with
      | some fi => pyStrip (content3.take fi)
      | none => content3
    let sections := splitHeaderLines content4
    pyStrip (sections.map cleanSection).flatten

/-- The lazy `.*?\](` step of the harvester regex
`^###\s*\n?\[.*?\]\((.*?)\)`: the number of characters consumed up to and
including the first `](`; `.` does not match a newline, so a newline before
any `](` fails the attempt. -/
def findLinkMidLen : List Char → Option Nat
  | [] => none
  | c :: rest =>
    if c = '\n' then none
    else if c = ']' ∧ rest.head? = some '(' then some 2
    else (findLinkMidLen rest).map (· + 1)

/-- Attempt `^###\s*\n?\[.*?\]\((.*?)\)` at a line start.  `\s*` may span
newlines (so the optional `\n?` is absorbed by it), and only the position
right after the whitespace run can carry the required `[`.  Returns
`some (url, k)` when the regex matches here consuming exactly `k + 1`
characters. -/
def matchHeaderLink (cs : List Char) : Option (List Char × Nat) :=
  if hashes3.isPrefixOf cs then
    let after := cs.drop 3
    let gap := after.takeWhile isPySpace
    match after.drop gap.length with
    | '[' :: rest =>
      match findLinkMidLen rest with
      | some mid =>
        let rest2 := rest.drop mid
        let u := rest2.takeWhile (fun c => c ≠ ')' && c ≠ '\n')
        match rest2.drop u.length with
        | ')' :: _ => some (u, 4 + gap.length + mid + u.length)
        | _ => none
      | none => none
    | _ => none
  else none

/-- `re.findall` driver for the harvester: try the anchored pattern at every
line start; on a hit, emit the capture and continue after the match
(non-overlapping); otherwise advance one character.  A match consumes
`k + 1 ≥ 1` characters, so the fuel supplied by
`extract_urls_from_content` (the text's length) is never exhausted. -/
def extractUrlsAux : Nat → List Char → Bool → List (List Char)
  | 0, _, _ => []
  | _, [], _ => []
  | fuel + 1, c :: rest, atStart =>
    if atStart then
      match matchHeaderLink (c :: rest) with
      | some (u, k) => u :: extractUrlsAux fuel ((c :: rest).drop (k + 1)) false
      | none => extractUrlsAux fuel rest (c = '\n')
    else
      extractUrlsAux fuel rest (c = '\n')

/-- `WebSearchService._extract_urls_from_content`. -/
def extract_urls_from_content (text : List Char) : List (List Char) :=
  extractUrlsAux text.length text true

/-- `app.schema.web_search_schema.WebSearchInfo`, restricted to the fields
the pipeline sets (`search_time` is an external clock value the claims do
not touch).  In the source `search_result` defaults to `""` and `error` to
`None`; the embedding always passes them explicitly. -/
structure WebSearchInfo where
  query : List Char
  search_result : List Char
  error : Option (List Char)
deriving DecidableEq

/-- The redirect-resolution-and-substitution loop of `search`:
`redirect_chain[-1]` raises `IndexError` on an empty chain, which the
top-level `except` would turn into an error result, hence the `Except`. -/
def rewriteUrls (fetch : List Char → FetchResult) (depth : Nat) :
    List (List Char) → List Char → Except (List Char) (List Char)
  | [], content => .ok content
  | u :: rest, content =>
    match (trace_url_redirects fetch depth u).getLast? with
    | some finalUrl => rewriteUrls fetch depth rest (pyReplace content u finalUrl)
    | none => .error ("list index out of range").data

/-- The Digest Rewriter viewed on `(originalURL, resolvedURL)` pairs: each
pair in order performs a literal replace-all on the progressively mutated
text. -/
def digestRewrite (pairs : List (List Char × List Char)) (text : List Char) : List Char :=
  pairs.foldl (fun t p => pyReplace t p.1 p.2) text

/-- `WebSearchService.search`.  `crawlResult` is the outcome of the crawler
collaborator for this query: `.ok markdown` when `crawler.arun` returns the
rendered markup, `.error e` when anything in the `try` block raises with
message `e` before the cleaning begins. -/
def search (fetch : List Char → FetchResult) (depth : Nat)
    (crawlResult : Except (List Char) (List Char)) (query : List Char) : WebSearchInfo :=
  match crawlResult with
  | .error e => ⟨query, [], some e⟩
  | .ok markdown =>
    let cleaned := clean_baidu_search_result markdown
    let urls := extract_urls_from_content cleaned
    match rewriteUrls fetch depth urls cleaned with
    | .ok finalContent => ⟨query, finalContent, none⟩
    | .error e => ⟨query, [], some e⟩

/-! ### Concrete fixtures used by counterexamples and witnesses -/

def urlA : List Char := ("A").data
def urlB : List Char := ("B").data
def urlC : List Char := ("C").data
def urlLowerA : List Char := ("a").data
def urlLowerB : List Char := ("b").data
def urlU : List Char := ("u").data

def bodyToB : List Char := ("window.location.replace('B')").data
def bodyToC : List Char := ("window.location.replace('C')").data
def bodyToA : List Char := ("window.location.replace('A')").data

/-- A transport where fetching `a` follows one server-side redirect to `b`
(history `[a]`, final URL `b`, empty body) and every other URL fails. -/
def fetchC1 : List Char → FetchResult := fun u =>
  if u = urlLowerA then .ok [urlLowerA] urlLowerB [] else .err

/-- A transport realising the synthetic client-side redirect cycle
`A → B → C → A`: every fetch succeeds with no server-side redirect and a
body whose script sends the next URL of the cycle. -/
def fetchCycle : List Char → FetchResult := fun u =>
  if u = urlA then .ok [] urlA bodyToB
  else if u = urlB then .ok [] urlB bodyToC
  else if u = urlC then .ok [] urlC bodyToA
  else .err

/-- A transport where every fetch fails. -/
def fetchAllErr : List Char → FetchResult := fun _ => .err

/-! ### Helper lemmas -/

theorem hopUrls_isEmpty (history : List (List Char)) (real : List Char) :
    (hopUrls history real).isEmpty = false := by
  unfold hopUrls
  split <;> simp

theorem trace_ne_nil (fetch : List Char → FetchResult) (depth : Nat) (url : List Char) :
    trace_url_redirects fetch depth url ≠ [] := by
  cases h : (traceLoop fetch url depth url [] []).isEmpty
  · have hne : traceLoop fetch url depth url [] [] ≠ [] := by
      intro hnil
      rw [hnil] at h
      simp at h
    simpa [trace_url_redirects, h] using hne
  · simp [trace_url_redirects, h]

/-- The later-hop behaviour of the loop: with a failing fetch and a
nonempty accumulated chain, the loop always returns the chain unchanged. -/
theorem traceLoop_err_keeps_chain (fetch : List Char → FetchResult)
    (initial : List Char) (fuel : Nat) (current : List Char)
    (visited chain : List (List Char))
    (herr : fetch current = .err) (hne : chain ≠ []) :
    traceLoop fetch initial fuel current visited chain = chain := by
  cases fuel with
  | zero => simp [traceLoop]
  | succ n =>
    simp only [traceLoop]
    split
    · rfl
    · rw [herr]
      cases chain with
      | nil => exact absurd rfl hne
      | cons a l => simp

/-! ### C1 -/

/-- C1 (counterexample): with the resolver's hop bound
(`max_redirect_depth`, the spec's `maxClientHops`) set to `0`, the resolver
performs no fetch at all and returns `[url]`, which differs from the
transport-level outcome of one fetch of `a` (server history `[a]` plus
final URL `b`, i.e. `[a, b]`).  So the claim "maxClientHops = 0 returns
exactly the transport-level outcome of one fetch" is false on the code. -/
theorem C1_maxhops_zero_counterexample :
    fetchC1 urlLowerA = .ok [urlLowerA] urlLowerB [] ∧
    hopUrls [urlLowerA] urlLowerB = [urlLowerA, urlLowerB] ∧
    trace_url_redirects fetchC1 0 urlLowerA = [urlLowerA] ∧
    trace_url_redirects fetchC1 0 urlLowerA ≠ hopUrls [urlLowerA] urlLowerB := by
  refine ⟨by decide, by decide, by decide, by decide⟩

/-- C1 (amended): with depth `0` the resolver returns `[url]` without
fetching; the claimed behaviour — exactly the transport-level outcome of a
single fetch (its server-side history plus final URL on success, `[url]` on
failure), with no client-side hop attempted — is obtained at depth `1`. -/
theorem C1_maxhops_amended (fetch : List Char → FetchResult) (url : List Char) :
    trace_url_redirects fetch 0 url = [url] ∧
    trace_url_redirects fetch 1 url =
      (match fetch url with
       | .ok history real _ => hopUrls history real
       | .err => [url]) := by
  constructor
  · simp [trace_url_redirects, traceLoop]
  · unfold trace_url_redirects traceLoop
    cases hf : fetch url with
    | err => simp
    | ok history real body =>
      simp only [List.not_mem_nil, if_false, ite_false, if_neg (fun h => h)]
      cases hj : extract_js_redirect body <;>
        simp [traceLoop, hopUrls_isEmpty]

/-! ### C2 -/

/-- C2: within the embedded transport model (`err` = the caught
`aiohttp.ClientError`/`TimeoutError` cases) the resolver is a total
function — it never raises.  If the very first hop's fetch fails the result
is exactly `[url]`; if a later hop's fetch fails (failing fetch of the
current URL with a nonempty accumulated chain), the accumulated chain is
returned unchanged. -/
theorem C2_failure_fallback :
    (∀ (fetch : List Char → FetchResult) (depth : Nat) (url : List Char),
        1 ≤ depth → fetch url = .err →
        trace_url_redirects fetch depth url = [url]) ∧
    (∀ (fetch : List Char → FetchResult) (initial : List Char) (fuel : Nat)
        (current : List Char) (visited chain : List (List Char)),
        fetch current = .err → chain ≠ [] →
        traceLoop fetch initial fuel current visited chain = chain) := by
  constructor
  · intro fetch depth url hdepth herr
    cases depth with
    | zero => omega
    | succ n =>
      unfold trace_url_redirects traceLoop
      rw [herr]
      simp
  · intro fetch initial fuel current visited chain herr hne
    exact traceLoop_err_keeps_chain fetch initial fuel current visited chain herr hne

/-- C2 witness: the two parts of `C2_failure_fallback` applied at a
transport that always fails. -/
theorem C2_failure_fallback_witness :
    trace_url_redirects fetchAllErr 3 urlU = [urlU] ∧
    traceLoop fetchAllErr urlU 2 urlA [urlB] [urlC] = [urlC] := by
  exact ⟨C2_failure_fallback.1 fetchAllErr 3 urlU (by decide) rfl,
         C2_failure_fallback.2 fetchAllErr urlU 2 urlA [urlB] [urlC] rfl (by decide)⟩

/-! ### C10 -/

/-- C10: the resolver always returns a nonempty chain — for every input
URL, every depth and every transport behaviour — and consequently the
orchestrator's `redirect_chain[-1]` step never fails: the
resolve-and-substitute loop of `search` always produces a value. -/
theorem C10_chain_nonempty :
    (∀ (fetch : List Char → FetchResult) (depth : Nat) (url : List Char),
        trace_url_redirects fetch depth url ≠ []) ∧
    (∀ (fetch : List Char → FetchResult) (depth : Nat)
        (urls : List (List Char)) (content : List Char),
        ∃ out, rewriteUrls fetch depth urls content = .ok out) := by
  refine ⟨trace_ne_nil, ?_⟩
  intro fetch depth urls
  induction urls with
  | nil => exact fun content => ⟨content, rfl⟩
  | cons u rest ih =>
    intro content
    have hne := trace_ne_nil fetch depth u
    have hsome : (trace_url_redirects fetch depth u).getLast?.isSome :=
      List.getLast?_isSome.mpr hne
    obtain ⟨y, hy⟩ := Option.isSome_iff_exists.mp hsome
    simp only [rewriteUrls, hy]
    exact ih (pyReplace content u y)

/-! ### C3 -/

/-- Every URL on which the loop invokes `fetch` was outside the `visited`
set passed in: the cycle guard checks membership before fetching. -/
theorem traceFetchedUrls_not_mem_visited (fetch : List Char → FetchResult) :
    ∀ (fuel : Nat) (current : List Char) (visited : List (List Char)) (u : List Char),
      u ∈ traceFetchedUrls fetch fuel current visited → u ∉ visited := by
  intro fuel
  induction fuel with
  | zero =>
    intro current visited u h
    simp [traceFetchedUrls] at h
  | succ n ih =>
    intro current visited u h
    by_cases hmem : current ∈ visited
    · simp [traceFetchedUrls, hmem] at h
    · cases hf : fetch current with
      | err =>
        simp only [traceFetchedUrls, if_neg hmem, hf, List.mem_singleton] at h
        subst h
        exact hmem
      | ok history real body =>
        cases hj : extract_js_redirect body with
        | none =>
          simp only [traceFetchedUrls, if_neg hmem, hf, hj, List.mem_singleton] at h
          subst h
          exact hmem
        | some next =>
          simp only [traceFetchedUrls, if_neg hmem, hf, hj, List.mem_cons] at h
          rcases h with h | h
          · subst h
            exact hmem
          · intro hv
            exact ih next (current :: visited) u h (List.mem_cons_of_mem current hv)

/-- The list of hop-initiating URLs fetched by one run of the loop has no
duplicates. -/
theorem traceFetchedUrls_nodup (fetch : List Char → FetchResult) :
    ∀ (fuel : Nat) (current : List Char) (visited : List (List Char)),
      (traceFetchedUrls fetch fuel current visited).Nodup := by
  intro fuel
  induction fuel with
  | zero =>
    intro current visited
    simp [traceFetchedUrls]
  | succ n ih =>
    intro current visited
    by_cases hmem : current ∈ visited
    · simp [traceFetchedUrls, hmem]
    · cases hf : fetch current with
      | err => simp [traceFetchedUrls, hmem, hf]
      | ok history real body =>
        cases hj : extract_js_redirect body with
        | none => simp [traceFetchedUrls, hmem, hf, hj]
        | some next =>
          simp only [traceFetchedUrls, if_neg hmem, hf, hj, List.nodup_cons]
          refine ⟨?_, ih next (current :: visited)⟩
          intro hcur
          exact traceFetchedUrls_not_mem_visited fetch n next (current :: visited) current hcur
            (List.mem_cons_self current visited)

/-- C3: over the synthetic client-side cycle `A → B → C → A`
(`fetchCycle`), resolution with depth 4 terminates with chain
`[A, B, C]` — the terminal URL is `C`, the last URL visited before the
cycle guard fired on the revisit of `A` — the loop fetched exactly
`A, B, C` once each, and in general (any transport, any fuel) no URL is
ever fetched twice as a hop-initiating URL within one chain. -/
theorem C3_cycle_termination :
    trace_url_redirects fetchCycle 4 urlA = [urlA, urlB, urlC] ∧
    (trace_url_redirects fetchCycle 4 urlA).getLast? = some urlC ∧
    traceFetchedUrls fetchCycle 4 urlA [] = [urlA, urlB, urlC] ∧
    (∀ (fetch : List Char → FetchResult) (fuel : Nat) (url : List Char),
        (traceFetchedUrls fetch fuel url []).Nodup) := by
  refine ⟨by decide, by decide, by decide, ?_⟩
  intro fetch fuel url
  exact traceFetchedUrls_nodup fetch fuel url []

/-! ### C4 -/

theorem pyStrip_of_no_space (s : List Char) (h : ∀ c ∈ s, isPySpace c = false) :
    pyStrip s = s := by
  unfold pyStrip
  have h1 : s.dropWhile isPySpace = s := by
    cases s with
    | nil => rfl
    | cons a l => simp [List.dropWhile_cons, h a (by simp)]
  rw [h1]
  have h2 : s.reverse.dropWhile isPySpace = s.reverse := by
    cases hs : s.reverse with
    | nil => rfl
    | cons a l =>
      have ha : a ∈ s := by
        have hmem : a ∈ s.reverse := by
          rw [hs]
          simp
        simpa using hmem
      simp [List.dropWhile_cons, h a ha]
  rw [h2, List.reverse_reverse]

theorem collapseWs_of_no_space (s : List Char) (h : ∀ c ∈ s, isPySpace c = false) :
    ∀ b, collapseWsAux s b = s := by
  induction s with
  | nil => intro b; rfl
  | cons a l ih =>
    intro b
    simp [collapseWsAux, h a (by simp), ih (fun c hc => h c (by simp [hc]))]

/-- C4: whenever the whitespace-collapsed body exceeds 1500 characters the
extractor returns no client-side redirect target — regardless of any
redirect-looking text in the body — and the loop that fetched such a body
stops right there, returning the accumulated chain extended by that hop's
transport history, whose terminal is that hop's final URL. -/
theorem C4_large_body_terminal :
    (∀ html : List Char,
        1500 < (compactHtml html).length →
        extract_js_redirect html = none) ∧
    (∀ (fetch : List Char → FetchResult) (initial : List Char) (fuel : Nat)
        (current : List Char) (visited chain : List (List Char))
        (history : List (List Char)) (real body : List Char),
        current ∉ visited →
        fetch current = .ok history real body →
        1500 < (compactHtml body).length →
        traceLoop fetch initial (fuel + 1) current visited chain =
          chain ++ hopUrls history real) := by
  have hext : ∀ html : List Char,
      1500 < (compactHtml html).length →
      extract_js_redirect html = none := by
    intro html h
    unfold extract_js_redirect
    rw [if_pos h]
  refine ⟨hext, ?_⟩
  intro fetch initial fuel current visited chain history real body hmem hf hlen
  simp only [traceLoop, if_neg hmem, hf]
  simp [hext body hlen]

def bigBody : List Char := List.replicate 1501 ('a')

def fetchBig : List Char → FetchResult := fun _ => .ok [] urlB bigBody

/-- C4 witness: a 1501-character body of `'a'`s triggers the size guard and
makes the loop terminal after one hop. -/
theorem C4_large_body_terminal_witness :
    extract_js_redirect bigBody = none ∧
    traceLoop fetchBig urlA 3 urlA [] [] = [] ++ hopUrls [] urlB := by
  have hnos : ∀ c ∈ bigBody, isPySpace c = false := by
    intro c hc
    have hca : c = 'a' := List.eq_of_mem_replicate hc
    subst hca
    decide
  have hlen : 1500 < (compactHtml bigBody).length := by
    unfold compactHtml
    rw [pyStrip_of_no_space bigBody hnos, collapseWs_of_no_space bigBody hnos false]
    unfold bigBody
    rw [List.length_replicate]
    omega
  exact ⟨C4_large_body_terminal.1 bigBody hlen,
         C4_large_body_terminal.2 fetchBig urlA 2 urlA [] [] [] urlB bigBody
           (by simp) rfl hlen⟩

/-! ### C7 -/

def errBoom : List Char := ("boom").data

/-- C7: when the crawler collaborator (or anything before the cleaning
stage) raises with message `e`, `search` returns a result with `error = e`
and an empty `search_result`; and in every result `search` can return, a
set `error` field implies an empty `search_result`. -/
theorem C7_error_result :
    (∀ (fetch : List Char → FetchResult) (depth : Nat) (query e : List Char),
        search fetch depth (.error e) query = ⟨query, [], some e⟩) ∧
    (∀ (fetch : List Char → FetchResult) (depth : Nat)
        (crawlResult : Except (List Char) (List Char)) (query : List Char),
        (search fetch depth crawlResult query).error ≠ none →
        (search fetch depth crawlResult query).search_result = []) := by
  constructor
  · intro fetch depth query e
    rfl
  · intro fetch depth crawlResult query herr
    cases crawlResult with
    | error e => rfl
    | ok markdown =>
      cases hrw : rewriteUrls fetch depth
          (extract_urls_from_content (clean_baidu_search_result markdown))
          (clean_baidu_search_result markdown) with
      | ok c => simp [search, hrw] at herr
      | error e => simp [search, hrw]

/-- C7 witness: a crawler failure with message `boom` yields the error
result with empty digest. -/
theorem C7_error_result_witness :
    search fetchAllErr 3 (.error errBoom) urlU = ⟨urlU, [], some errBoom⟩ ∧
    (search fetchAllErr 3 (.error errBoom) urlU).search_result = [] := by
  exact ⟨C7_error_result.1 fetchAllErr 3 urlU errBoom,
         C7_error_result.2 fetchAllErr 3 (.error errBoom) urlU (by decide)⟩

/-! ### C8 -/

def urlLowerC : List Char := ("c").data
def urlX : List Char := ("x").data

def c8Pairs : List (List Char × List Char) :=
  [(urlLowerA, urlLowerB), (urlLowerB, urlLowerC), (urlX, urlLowerB)]

/-- C8: the resolve-and-substitute loop of `search` is exactly the
sequential Digest Rewriter — each `(original, resolved)` pair in harvest
order performs a literal replace-all on the progressively mutated text —
and with the pair list `c8Pairs`, where the resolved URL of the first pair
(`b`) textually equals the original URL of the second pair, applying the
rewriter twice to `"x"` gives `"c"` while applying it once gives `"b"`:
not idempotent. -/
theorem C8_rewriter_sequential :
    (∀ (fetch : List Char → FetchResult) (depth : Nat)
        (urls : List (List Char)) (content : List Char),
        rewriteUrls fetch depth urls content =
          .ok (digestRewrite
                (urls.map (fun u => (u, (trace_url_redirects fetch depth u).getLastD [])))
                content)) ∧
    (∀ (p : List Char × List Char) (ps : List (List Char × List Char)) (t : List Char),
        digestRewrite (p :: ps) t = digestRewrite ps (pyReplace t p.1 p.2)) ∧
    (c8Pairs[0]?).map Prod.snd = (c8Pairs[1]?).map Prod.fst ∧
    digestRewrite c8Pairs (digestRewrite c8Pairs urlX) ≠ digestRewrite c8Pairs urlX := by
  refine ⟨?_, ?_, by decide, by decide⟩
  · intro fetch depth urls
    induction urls with
    | nil => intro content; rfl
    | cons u rest ih =>
      intro content
      obtain ⟨y, hy⟩ := Option.isSome_iff_exists.mp
        (List.getLast?_isSome.mpr (trace_ne_nil fetch depth u))
      have hyd : (trace_url_redirects fetch depth u).getLastD [] = y := by
        rw [List.getLastD_eq_getLast?, hy]
        rfl
      simp only [rewriteUrls, hy, List.map_cons, digestRewrite, List.foldl_cons, hyd]
      exact ih (pyReplace content u y)
  · intro p ps t
    simp [digestRewrite]

/-! ### C5 -/

def c5Input : List Char :=
  ("时间不限所有网页和文件站点内检索\n百度为您找到以下结果\n### \nA\n### \nB\n### \nC\n### \nD").data

def c5Observed : List Char := ("### A\n### B\n### C\n###").data

def c5Intended : List Char := ("### A\n### B\n### C").data

/-- C5 (evaluation at the failing input): `c5Input` contains the header
marker and exactly 4 block-boundary marks, yet the cleaner's output ends in
a stray `"###"` — a remnant of the 4th block's header.  The truncation
index `matches[3].start()` is computed *before* the
`re.sub(r'^###\s*\n', '### ', …)` normalisation shrinks the text, so the
cut lands 3 characters past the true start of the 4th mark instead of on
it; the intended output (everything from the 4th mark removed, per the
claim, the spec, and the function's own docstring step 2) is `c5Intended`. -/
theorem C5_stale_cutoff_eval :
    clean_baidu_search_result c5Input = c5Observed ∧
    pyContains c5Input baiduMarker = true ∧
    (markPositions (pyStrip (c5Input.drop baiduMarker.length))).length = 4 ∧
    c5Observed ≠ c5Intended := by
  refine ⟨by decide, by decide, by decide, by decide⟩

/-! ### C6 -/

/-- The scanner behind `str.find` fails exactly when the needle is not an
infix of the haystack. -/
theorem findSubAux_none_iff (needle : List Char) :
    ∀ (hay : List Char) (i : Nat),
      findSubAux needle hay i = none ↔ ¬ needle <:+: hay := by
  intro hay
  induction hay with
  | nil =>
    intro i
    cases needle with
    | nil => simp [findSubAux]
    | cons a l => simp [findSubAux]
  | cons c rest ih =>
    intro i
    by_cases hp : needle.isPrefixOf (c :: rest) = true
    · have hpre : needle <+: (c :: rest) := ( List.isPrefixOf_iff_prefix).mp hp
      have hinf : needle <:+: (c :: rest) := by
        obtain ⟨t, ht⟩ := hpre
        exact ⟨[], t, by simpa using ht⟩
      simp [findSubAux, hp, hinf]
    · have hnpre : ¬ needle <+: (c :: rest) := fun hx =>
        hp (( List.isPrefixOf_iff_prefix).mpr hx)
      simp only [findSubAux, if_neg hp]
      rw [ih (i + 1), List.infix_cons_iff]
      constructor
      · intro h hor
        rcases hor with hx | hx
        · exact hnpre hx
        · exact h hx
      · intro h hx
        exact h (Or.inr hx)

/-- When the header marker is absent the cleaner returns the empty string
(the first branch of `_clean_baidu_search_result`). -/
theorem clean_empty_of_no_marker (raw : List Char) (h : ¬ baiduMarker <:+: raw) :
    clean_baidu_search_result raw = [] := by
  have hfind : pyFind raw baiduMarker = none := by
    unfold pyFind
    exact (findSubAux_none_iff baiduMarker raw 0).mpr h
  unfold clean_baidu_search_result
  rw [hfind]

/-- C6: markup that does not contain the literal header marker yields the
empty digest without raising, and end to end `search` returns a result with
empty `search_result` and `error = none`. -/
theorem C6_marker_absent :
    (∀ raw : List Char, ¬ baiduMarker <:+: raw →
        clean_baidu_search_result raw = []) ∧
    (∀ (fetch : List Char → FetchResult) (depth : Nat) (raw query : List Char),
        ¬ baiduMarker <:+: raw →
        search fetch depth (.ok raw) query = ⟨query, [], none⟩) := by
  refine ⟨fun raw h => clean_empty_of_no_marker raw h, ?_⟩
  intro fetch depth raw query h
  have hc := clean_empty_of_no_marker raw h
  simp [search, hc, extract_urls_from_content, extractUrlsAux, rewriteUrls]

def rawHello : List Char := ("hello").data

/-- C6 witness: `"hello"` lacks the marker; both parts of
`C6_marker_absent` at this input. -/
theorem C6_marker_absent_witness :
    clean_baidu_search_result rawHello = [] ∧
    search fetchAllErr 3 (.ok rawHello) urlU = ⟨urlU, [], none⟩ := by
  have hni : ¬ baiduMarker <:+: rawHello :=
    (findSubAux_none_iff baiduMarker rawHello 0).mp (by decide)
  exact ⟨C6_marker_absent.1 rawHello hni,
         C6_marker_absent.2 fetchAllErr 3 rawHello urlU hni⟩

/-! ### C9 -/

def c9Text : List Char := ("### T\n[x](http://u)").data

def c9ClaimUrl : List Char := ("http://u").data

/-- C9 (counterexample): in `c9Text` the single block's header line
`"### T"` is immediately followed on the next line by the link pattern
`[x](http://u)`, so the claim demands the harvester return
`["http://u"]`; the code's regex `^###\s*\n?\[.*?\]\((.*?)\)` requires the
`[` to follow the `###` mark with only whitespace in between, and returns
no URL at all. -/
theorem C9_harvester_counterexample :
    extract_urls_from_content c9Text = [] ∧
    c9Text = ("### T").data ++ '\n' :: ("[x](http://u)").data ∧
    ([] : List (List Char)) ≠ [c9ClaimUrl] := by
  refine ⟨by decide, by decide, by decide⟩

/-! #### A structured family of digests for the amended harvester claim -/

/-- A result block as rendered into digest text: either a `###` mark
followed (after a whitespace gap, possibly spanning line breaks) directly
by a `[text](url)` link with a same-line `tail` after it, or a plain
header whose line carries some non-whitespace, non-`[` content; in both
cases followed by body lines. -/
inductive RBlock where
  | linkB (gap text url tail : List Char) (body : List (List Char))
  | plainB (pre : List Char) (c : Char) (post : List Char) (body : List (List Char))
deriving DecidableEq

def renderLines (lns : List (List Char)) : List Char :=
  (lns.map (fun l => l ++ ['\n'])).flatten

def renderBlock : RBlock → List Char
  | .linkB gap text url tail body =>
      hashes3 ++ gap ++
        '[' :: (text ++ ']' :: '(' :: (url ++ ')' :: (tail ++ '\n' :: renderLines body)))
  | .plainB pre c post body =>
      hashes3 ++ pre ++ c :: (post ++ '\n' :: renderLines body)

/-- The URL the amended claim assigns to a block: the link target for a
link-form block, none for a plain-header block. -/
def blockUrl : RBlock → Option (List Char)
  | .linkB _ _ url _ _ => some url
  | .plainB _ _ _ _ => none

/-- A well-formed body line: a single line that does not itself start a new
`###` mark. -/
def WFLine (line : List Char) : Prop :=
  '\n' ∉ line ∧ hashes3.isPrefixOf line = false

/-- Well-formedness of a rendered block: the gap is pure whitespace, the
link text and URL stay on one line and do not contain their own closing
delimiter, the tail stays on the header's line, a plain header carries a
first non-whitespace character that is not `[`, and body lines are
well-formed. -/
def WFBlock : RBlock → Prop
  | .linkB gap text url tail body =>
      (∀ ch ∈ gap, isPySpace ch = true) ∧
      ']' ∉ text ∧ '\n' ∉ text ∧
      ')' ∉ url ∧ '\n' ∉ url ∧
      '\n' ∉ tail ∧
      (∀ l ∈ body, WFLine l)
  | .plainB pre c post body =>
      (∀ ch ∈ pre, isPySpace ch = true) ∧ '\n' ∉ pre ∧
      isPySpace c = false ∧ c ≠ '[' ∧
      '\n' ∉ post ∧
      (∀ l ∈ body, WFLine l)

instance (line : List Char) : Decidable (WFLine line) := by
  unfold WFLine
  infer_instance

instance (b : RBlock) : Decidable (WFBlock b) := by
  cases b <;> (unfold WFBlock; infer_instance)

/-- The canonical harvester scan: `extractUrlsAux` with just enough fuel. -/
def harvestScan (cs : List Char) (b : Bool) : List (List Char) :=
  extractUrlsAux cs.length cs b

theorem extractUrlsAux_nil (fuel : Nat) (b : Bool) :
    extractUrlsAux fuel [] b = [] := by
  cases fuel <;> rfl

/-- The scan does not depend on the fuel as long as the fuel covers the
text's length. -/
theorem extractUrlsAux_fuel_congr :
    ∀ (fuel1 : Nat) (cs : List Char) (b : Bool) (fuel2 : Nat),
      cs.length ≤ fuel1 → cs.length ≤ fuel2 →
      extractUrlsAux fuel1 cs b = extractUrlsAux fuel2 cs b := by
  intro fuel1
  induction fuel1 with
  | zero =>
    intro cs b fuel2 h1 _
    have hnil : cs = [] := List.length_eq_zero.mp (Nat.le_zero.mp h1)
    subst hnil
    rw [extractUrlsAux_nil, extractUrlsAux_nil]
  | succ n ih =>
    intro cs b fuel2 h1 h2
    cases cs with
    | nil => rw [extractUrlsAux_nil, extractUrlsAux_nil]
    | cons c rest =>
      cases fuel2 with
      | zero => simp at h2
      | succ m =>
        simp only [List.length_cons] at h1 h2
        simp only [extractUrlsAux]
        cases b with
        | false =>
          simp only [Bool.false_eq_true, if_false]
          exact ih rest (c = '\n') m (by omega) (by omega)
        | true =>
          simp only [if_true]
          cases hm : matchHeaderLink (c :: rest) with
          | none => exact ih rest (c = '\n') m (by omega) (by omega)
          | some uk =>
            obtain ⟨u, k⟩ := uk
            have hd1 : ((c :: rest).drop (k + 1)).length ≤ n := by
              simp only [List.length_drop, List.length_cons]
              omega
            have hd2 : ((c :: rest).drop (k + 1)).length ≤ m := by
              simp only [List.length_drop, List.length_cons]
              omega
            show u :: extractUrlsAux n ((c :: rest).drop (k + 1)) false =
              u :: extractUrlsAux m ((c :: rest).drop (k + 1)) false
            rw [ih ((c :: rest).drop (k + 1)) false m hd1 hd2]

theorem harvestScan_nil (b : Bool) : harvestScan [] b = [] := rfl

theorem harvestScan_step_false (c : Char) (rest : List Char) :
    harvestScan (c :: rest) false = harvestScan rest (c = '\n') := rfl

theorem harvestScan_step_nomatch (c : Char) (rest : List Char)
    (hm : matchHeaderLink (c :: rest) = none) :
    harvestScan (c :: rest) true = harvestScan rest (c = '\n') := by
  have h0 : harvestScan (c :: rest) true =
      (match matchHeaderLink (c :: rest) with
       | some (u, k) => u :: extractUrlsAux rest.length ((c :: rest).drop (k + 1)) false
       | none => extractUrlsAux rest.length rest (c = '\n')) := rfl
  rw [h0, hm]
  exact rfl

theorem harvestScan_step_match (c : Char) (rest u : List Char) (k : Nat)
    (hm : matchHeaderLink (c :: rest) = some (u, k)) :
    harvestScan (c :: rest) true = u :: harvestScan ((c :: rest).drop (k + 1)) false := by
  have h0 : harvestScan (c :: rest) true =
      (match matchHeaderLink (c :: rest) with
       | some (u, k) => u :: extractUrlsAux rest.length ((c :: rest).drop (k + 1)) false
       | none => extractUrlsAux rest.length rest (c = '\n')) := rfl
  rw [h0, hm]
  show u :: extractUrlsAux rest.length ((c :: rest).drop (k + 1)) false =
    u :: harvestScan ((c :: rest).drop (k + 1)) false
  unfold harvestScan
  rw [extractUrlsAux_fuel_congr rest.length ((c :: rest).drop (k + 1)) false
      ((c :: rest).drop (k + 1)).length
      (by simp only [List.length_drop, List.length_cons]; omega)
      (Nat.le_refl _)]

/-- Scanning the remainder of a line (no newline inside) with the
line-start flag off finds nothing until the newline. -/
theorem harvestScan_skip_midline :
    ∀ (cs rest : List Char), '\n' ∉ cs →
      harvestScan (cs ++ '\n' :: rest) false = harvestScan rest true := by
  intro cs
  induction cs with
  | nil =>
    intro rest _
    rw [List.nil_append, harvestScan_step_false]
    simp
  | cons a cs ih =>
    intro rest h
    have ha : a ≠ '\n' := fun he => h (by simp [he])
    rw [List.cons_append, harvestScan_step_false, decide_eq_false ha]
    exact ih rest (fun hx => h (by simp [hx]))

/-- A pattern without newlines that is a prefix of `line ++ '\n' :: rest`
is already a prefix of `line`. -/
theorem prefix_through_newline :
    ∀ (pat line rest : List Char), '\n' ∉ pat →
      pat <+: (line ++ '\n' :: rest) → pat <+: line := by
  intro pat
  induction pat with
  | nil =>
    intro line rest _ _
    exact List.nil_prefix
  | cons p ps ih =>
    intro line rest hnl hp
    cases line with
    | nil =>
      rw [List.nil_append, List.cons_prefix_cons] at hp
      exact absurd hp.1 (fun he => hnl (by simp [he]))
    | cons a l =>
      rw [List.cons_append, List.cons_prefix_cons] at hp
      rw [List.cons_prefix_cons]
      exact ⟨hp.1, ih l rest (fun hx => hnl (by simp [hx])) hp.2⟩

/-- A line that does not start with `###` can never begin a harvester
match, whatever follows after its newline. -/
theorem matchHeaderLink_none_of_line (line rest : List Char)
    (hpre : hashes3.isPrefixOf line = false) :
    matchHeaderLink (line ++ '\n' :: rest) = none := by
  have hnot : ¬ (hashes3.isPrefixOf (line ++ '\n' :: rest) = true) := by
    intro hcontra
    have hp := ( List.isPrefixOf_iff_prefix).mp hcontra
    have hpl := prefix_through_newline hashes3 line rest (by decide) hp
    have hb := ( List.isPrefixOf_iff_prefix).mpr hpl
    rw [hb] at hpre
    exact Bool.noConfusion hpre
  unfold matchHeaderLink
  rw [if_neg hnot]

theorem harvestScan_skip_line (line rest : List Char)
    (hnl : '\n' ∉ line)
    (hm : matchHeaderLink (line ++ '\n' :: rest) = none) :
    harvestScan (line ++ '\n' :: rest) true = harvestScan rest true := by
  cases line with
  | nil =>
    rw [List.nil_append] at hm ⊢
    rw [harvestScan_step_nomatch _ _ hm]
    simp
  | cons c cs =>
    rw [List.cons_append] at hm ⊢
    rw [harvestScan_step_nomatch _ _ hm]
    have hc : c ≠ '\n' := fun he => hnl (by simp [he])
    rw [decide_eq_false hc]
    exact harvestScan_skip_midline cs rest (fun hx => hnl (by simp [hx]))

/-- Well-formed body lines are skipped whole by the scan. -/
theorem harvestScan_skip_body :
    ∀ (body : List (List Char)) (rest : List Char),
      (∀ l ∈ body, WFLine l) →
      harvestScan (renderLines body ++ rest) true = harvestScan rest true := by
  intro body
  induction body with
  | nil =>
    intro rest _
    simp [renderLines]
  | cons l ls ih =>
    intro rest h
    have hl := h l (by simp)
    have hrl : renderLines (l :: ls) ++ rest = l ++ '\n' :: (renderLines ls ++ rest) := by
      simp [renderLines]
    rw [hrl,
        harvestScan_skip_line l _ hl.1 (matchHeaderLink_none_of_line l _ hl.2)]
    exact ih rest (fun x hx => h x (by simp [hx]))

theorem takeWhile_all_stop (p : Char → Bool) :
    ∀ (xs : List Char) (y : Char) (ys : List Char),
      (∀ x ∈ xs, p x = true) → p y = false →
      (xs ++ y :: ys).takeWhile p = xs := by
  intro xs
  induction xs with
  | nil =>
    intro y ys _ hy
    simp [List.takeWhile_cons, hy]
  | cons a l ih =>
    intro y ys h hy
    simp [List.takeWhile_cons, h a (by simp),
          ih y ys (fun x hx => h x (by simp [hx])) hy]

/-- The lazy `.*?\](` scan on `text ++ "](" ++ Z` consumes exactly the text
and the two delimiters when the text contains neither `]` nor a newline. -/
theorem findLinkMidLen_eval :
    ∀ (text Z : List Char), ']' ∉ text → '\n' ∉ text →
      findLinkMidLen (text ++ ']' :: '(' :: Z) = some (text.length + 2) := by
  intro text
  induction text with
  | nil =>
    intro Z _ _
    rfl
  | cons c cs ih =>
    intro Z h1 h2
    have hc1 : c ≠ ']' := fun he => h1 (by simp [he])
    have hc2 : c ≠ '\n' := fun he => h2 (by simp [he])
    have hstep : findLinkMidLen (c :: (cs ++ ']' :: '(' :: Z)) =
        (findLinkMidLen (cs ++ ']' :: '(' :: Z)).map (· + 1) := by
      conv_lhs => rw [findLinkMidLen]
      rw [if_neg hc2, if_neg (fun h => hc1 h.1)]
    rw [List.cons_append, hstep,
        ih Z (fun hx => h1 (by simp [hx])) (fun hx => h2 (by simp [hx]))]
    show some (cs.length + 2 + 1) = some ((c :: cs).length + 2)
    rw [List.length_cons]

/-- The harvester pattern matches at the head of a rendered link block,
capturing exactly the block's URL and consuming up to the closing `)`. -/
theorem matchHeaderLink_linkB (gap text url R : List Char)
    (hgap : ∀ ch ∈ gap, isPySpace ch = true)
    (ht1 : ']' ∉ text) (ht2 : '\n' ∉ text)
    (hu1 : ')' ∉ url) (hu2 : '\n' ∉ url) :
    matchHeaderLink (hashes3 ++ (gap ++ '[' :: (text ++ ']' :: '(' :: (url ++ ')' :: R))))
      = some (url, 4 + gap.length + (text.length + 2) + url.length) := by
  have hpre : hashes3.isPrefixOf
      (hashes3 ++ (gap ++ '[' :: (text ++ ']' :: '(' :: (url ++ ')' :: R)))) = true :=
    ( List.isPrefixOf_iff_prefix).mpr (List.prefix_append hashes3 _)
  have hdrop3 : (hashes3 ++ (gap ++ '[' :: (text ++ ']' :: '(' :: (url ++ ')' :: R)))).drop 3
      = gap ++ '[' :: (text ++ ']' :: '(' :: (url ++ ')' :: R)) :=
    List.drop_left' (by rfl)
  have hgapTake : (gap ++ '[' :: (text ++ ']' :: '(' :: (url ++ ')' :: R))).takeWhile isPySpace
      = gap :=
    takeWhile_all_stop isPySpace gap '[' _ hgap (by decide)
  have hgapDrop : (gap ++ '[' :: (text ++ ']' :: '(' :: (url ++ ')' :: R))).drop gap.length
      = '[' :: (text ++ ']' :: '(' :: (url ++ ')' :: R)) :=
    List.drop_left' rfl
  have hmid : findLinkMidLen (text ++ ']' :: '(' :: (url ++ ')' :: R))
      = some (text.length + 2) :=
    findLinkMidLen_eval text _ ht1 ht2
  have hsplit : text ++ ']' :: '(' :: (url ++ ')' :: R)
      = (text ++ [']', '(']) ++ (url ++ ')' :: R) := by
    rw [List.append_assoc, List.cons_append, List.cons_append, List.nil_append]
  have hmidDrop : (text ++ ']' :: '(' :: (url ++ ')' :: R)).drop (text.length + 2)
      = url ++ ')' :: R := by
    rw [hsplit]
    exact List.drop_left' (by simp)
  have hurlTake : (url ++ ')' :: R).takeWhile (fun c => c ≠ ')' && c ≠ '\n') = url := by
    refine takeWhile_all_stop _ url ')' R ?_ (by decide)
    intro x hx
    have hx1 : x ≠ ')' := fun he => hu1 (by rw [he] at hx; exact hx)
    have hx2 : x ≠ '\n' := fun he => hu2 (by rw [he] at hx; exact hx)
    simp [hx1, hx2]
  have hurlDrop : (url ++ ')' :: R).drop url.length = ')' :: R :=
    List.drop_left' rfl
  unfold matchHeaderLink
  rw [if_pos hpre]
  simp only [hdrop3, hgapTake, hgapDrop, hmid, hmidDrop, hurlTake, hurlDrop]

/-- The harvester pattern fails at the head of a rendered plain-header
block: after the whitespace run the next character is neither gone nor
`[`. -/
theorem matchHeaderLink_plainB (pre : List Char) (c : Char) (Z : List Char)
    (hws : ∀ ch ∈ pre, isPySpace ch = true)
    (hc1 : isPySpace c = false) (hc2 : c ≠ '[') :
    matchHeaderLink (hashes3 ++ (pre ++ c :: Z)) = none := by
  have hpre : hashes3.isPrefixOf (hashes3 ++ (pre ++ c :: Z)) = true :=
    ( List.isPrefixOf_iff_prefix).mpr (List.prefix_append hashes3 _)
  have hdrop3 : (hashes3 ++ (pre ++ c :: Z)).drop 3 = pre ++ c :: Z :=
    List.drop_left' (by rfl)
  have hgapTake : (pre ++ c :: Z).takeWhile isPySpace = pre :=
    takeWhile_all_stop isPySpace pre c Z hws hc1
  have hgapDrop : (pre ++ c :: Z).drop pre.length = c :: Z :=
    List.drop_left' rfl
  unfold matchHeaderLink
  rw [if_pos hpre]
  simp only [hdrop3, hgapTake, hgapDrop]
  split
  · rename_i heq
    rw [List.cons.injEq] at heq
    exact absurd heq.1 hc2
  · rfl

theorem hashes3_eq : hashes3 = ['#', '#', '#'] := rfl

/-- One well-formed rendered block contributes exactly its `blockUrl` (if
any) and the scan then continues at whatever follows the block. -/
theorem harvestScan_block (b : RBlock) (rest : List Char) (hwf : WFBlock b) :
    harvestScan (renderBlock b ++ rest) true =
      (blockUrl b).toList ++ harvestScan rest true := by
  cases b with
  | linkB gap text url tail body =>
    obtain ⟨hgap, ht1, ht2, hu1, hu2, htl, hbody⟩ := hwf
    have hre : renderBlock (.linkB gap text url tail body) ++ rest =
        '#' :: '#' :: '#' :: (gap ++ '[' :: (text ++ ']' :: '(' :: (url ++ ')' ::
          (tail ++ '\n' :: (renderLines body ++ rest))))) := by
      simp [renderBlock, hashes3_eq]
    have hm : matchHeaderLink ('#' :: '#' :: '#' :: (gap ++ '[' :: (text ++ ']' :: '(' ::
        (url ++ ')' :: (tail ++ '\n' :: (renderLines body ++ rest)))))) =
        some (url, 4 + gap.length + (text.length + 2) + url.length) := by
      have hl := matchHeaderLink_linkB gap text url
        (tail ++ '\n' :: (renderLines body ++ rest)) hgap ht1 ht2 hu1 hu2
      simpa [hashes3_eq] using hl
    have hdropEq : ('#' :: '#' :: '#' :: (gap ++ '[' :: (text ++ ']' :: '(' :: (url ++ ')' ::
          (tail ++ '\n' :: (renderLines body ++ rest)))))).drop
        (4 + gap.length + (text.length + 2) + url.length + 1) =
        tail ++ '\n' :: (renderLines body ++ rest) := by
      have hform : '#' :: '#' :: '#' :: (gap ++ '[' :: (text ++ ']' :: '(' :: (url ++ ')' ::
          (tail ++ '\n' :: (renderLines body ++ rest))))) =
          (('#' :: '#' :: '#' :: gap) ++ '[' :: ((text ++ [']', '(']) ++ (url ++ [')']))) ++
            (tail ++ '\n' :: (renderLines body ++ rest)) := by
        simp
      rw [hform]
      refine List.drop_left' ?_
      simp only [List.length_append, List.length_cons, List.length_nil]
      omega
    rw [hre, harvestScan_step_match _ _ _ _ hm, hdropEq,
        harvestScan_skip_midline tail _ htl,
        harvestScan_skip_body body rest hbody]
    simp [blockUrl]
  | plainB pre c post body =>
    obtain ⟨hws, hnp, hc1, hc2, hpo, hbody⟩ := hwf
    have hcn : c ≠ '\n' := by
      intro he
      rw [he] at hc1
      simp [isPySpace] at hc1
    have hre : renderBlock (.plainB pre c post body) ++ rest =
        '#' :: '#' :: '#' :: (pre ++ c :: (post ++ '\n' :: (renderLines body ++ rest))) := by
      simp [renderBlock, hashes3_eq]
    have hm : matchHeaderLink
        ('#' :: '#' :: '#' :: (pre ++ c :: (post ++ '\n' :: (renderLines body ++ rest)))) =
        none := by
      have hp := matchHeaderLink_plainB pre c
        (post ++ '\n' :: (renderLines body ++ rest)) hws hc1 hc2
      simpa [hashes3_eq] using hp
    have hline : ('#' :: '#' :: (pre ++ c :: post)) ++ '\n' :: (renderLines body ++ rest) =
        '#' :: '#' :: (pre ++ c :: (post ++ '\n' :: (renderLines body ++ rest))) := by
      simp
    have hnonl : '\n' ∉ '#' :: '#' :: (pre ++ c :: post) := by
      simp only [List.mem_cons, List.mem_append]
      push_neg
      exact ⟨by decide, by decide, hnp, fun he => hcn he.symm, hpo⟩
    rw [hre, harvestScan_step_nomatch _ _ hm,
        decide_eq_false (by decide : ('#' : Char) ≠ '\n')]
    have hskip := harvestScan_skip_midline ('#' :: '#' :: (pre ++ c :: post))
      (renderLines body ++ rest) hnonl
    rw [hline] at hskip
    rw [hskip, harvestScan_skip_body body rest hbody]
    simp [blockUrl]

/-- C9 (amended): over every well-formed list of rendered blocks, the
harvester returns exactly the URLs of the link-form blocks — one per
line-start `###` mark directly followed (after optional whitespace, which
may span line breaks) by a `[text](url)` link — in block order, with
duplicates across distinct blocks preserved as separate entries; plain
headers (title text before any link) contribute nothing. -/
theorem C9_harvester_amended (bs : List RBlock) (h : ∀ b ∈ bs, WFBlock b) :
    extract_urls_from_content ((bs.map renderBlock).flatten) = bs.filterMap blockUrl := by
  show harvestScan ((bs.map renderBlock).flatten) true = bs.filterMap blockUrl
  induction bs with
  | nil => simp [harvestScan_nil]
  | cons b rest ih =>
    have hfl : ((b :: rest).map renderBlock).flatten =
        renderBlock b ++ (rest.map renderBlock).flatten := by
      simp
    rw [hfl, harvestScan_block b _ (h b (by simp)),
        ih (fun x hx => h x (by simp [hx]))]
    cases b <;> simp [blockUrl]

def c9WitnessBlocks : List RBlock :=
  [RBlock.linkB [' '] (("x").data) (("u1").data) [] [],
   RBlock.plainB [' '] 'T' [] [(("[y](u2)").data)],
   RBlock.linkB (' ' :: '\n' :: []) [] (("u1").data) (("tl").data) [(("body").data)]]

/-- C9 witness: three rendered blocks — a same-line link block, a plain
titled header whose next line holds a link (not harvested), and a link
block whose gap spans a line break and repeats the first URL.  The
harvester returns the duplicate URL twice, in block order. -/
theorem C9_harvester_amended_witness :
    extract_urls_from_content ((c9WitnessBlocks.map renderBlock).flatten) =
      [("u1").data, ("u1").data] := by
  have h := C9_harvester_amended c9WitnessBlocks (by decide)
  rw [h]
  decide
